import Mathlib

/-!
Verification development for the CuraCast pipeline core.

The TypeScript sources are shallowly embedded: JS strings are `List Char`
(one element per UTF-16 code unit; every character occurring in this
development is a single code unit), timestamps are `Int` time points (the
calendar arithmetic of `Date.setDate` is modelled as integer subtraction in
day units), buffers are `List Nat` of bytes, and the effectful parts
(network fetch, TTS synthesis, ffmpeg) are abstracted as function
parameters of the model.  Fallible JS code is modelled with `Except` /
`Option`.
-/

namespace CuraCast

/-! ## Storage ledger (src/storage/json-storage.ts, class JsonStorage)

`save()` is file IO; each mutating operation is modelled as a pure function
on `StorageData` returning the new state together with the data the source
returns, and where relevant a `Bool` recording whether `save()` was invoked.
ISO-8601 timestamp strings are modelled as `Int` time points in day units;
`new Date()` at call time is the explicit `now` argument, and the
`cutoffDate.setDate(cutoffDate.getDate() - retentionDays)` computation is
`now - retentionDays`. -/

structure ProcessedArticle where
  id : String
  url : String
  title : String
  processedAt : Int
  episodeId : Option String
deriving DecidableEq

structure FailedUrl where
  url : String
  error : String
  failedAt : Int
  failureCount : Nat
deriving DecidableEq

structure StorageData where
  processedArticles : List ProcessedArticle
  failedUrls : List FailedUrl
deriving DecidableEq

/-- Input record of markAsProcessed: the source takes
an object with id, url and title fields. -/
structure ArticleKey where
  id : String
  url : String
  title : String
deriving DecidableEq

/-- JsonStorage.isProcessed: true iff some processed record has this id. -/
def isProcessed (d : StorageData) (articleId : String) : Bool :=
  d.processedArticles.any (fun a => a.id == articleId)

/-- JsonStorage.markAsProcessed: no-op when already processed, otherwise
appends a record and saves.  The second component records whether
`save()` was called. -/
def markAsProcessed (d : StorageData) (article : ArticleKey) (now : Int)
    (episodeId : Option String) : StorageData × Bool :=
  if isProcessed d article.id then (d, false)
  else
    ({ d with processedArticles :=
        d.processedArticles ++
          [⟨article.id, article.url, article.title, now, episodeId⟩] }, true)

/-- JsonStorage.cleanup: drop processed records older than the cutoff
(`processedAt >= cutoffDate` is kept); returns the removed count. -/
def cleanup (d : StorageData) (retentionDays : Int) (now : Int) :
    StorageData × Nat :=
  let cutoff := now - retentionDays
  let kept := d.processedArticles.filter (fun a => cutoff ≤ a.processedAt)
  ({ d with processedArticles := kept },
    d.processedArticles.length - kept.length)

/-- Body of JsonStorage.markUrlAsFailed: the source looks up the first
record with this url via `find`, mutates it in place when present
(overwriting error and timestamp, incrementing failureCount), and pushes a
fresh record with failureCount 1 at the end otherwise. -/
def upsertFailed (url err : String) (now : Int) :
    List FailedUrl → List FailedUrl
  | [] => [⟨url, err, now, 1⟩]
  | f :: fs =>
    if f.url == url then
      { f with error := err, failedAt := now,
               failureCount := f.failureCount + 1 } :: fs
    else f :: upsertFailed url err now fs

/-- JsonStorage.markUrlAsFailed; always saves. -/
def markUrlAsFailed (d : StorageData) (url err : String) (now : Int) :
    StorageData × Bool :=
  ({ d with failedUrls := upsertFailed url err now d.failedUrls }, true)

/-- JsonStorage.isUrlFailed: finds the first record for the url and
compares `failedAt >= cutoffDate` with `cutoffDate = now - retentionDays`.
Read-only: it inspects the ledger and deletes nothing. -/
def isUrlFailed (d : StorageData) (url : String) (retentionDays : Int)
    (now : Int) : Bool :=
  match d.failedUrls.find? (fun f => f.url == url) with
  | none => false
  | some entry => now - retentionDays ≤ entry.failedAt

/-- JsonStorage.cleanupFailedUrls: drop failed-url records older than the
cutoff; returns the removed count. -/
def cleanupFailedUrls (d : StorageData) (retentionDays : Int) (now : Int) :
    StorageData × Nat :=
  let cutoff := now - retentionDays
  let kept := d.failedUrls.filter (fun f => cutoff ≤ f.failedAt)
  ({ d with failedUrls := kept }, d.failedUrls.length - kept.length)

/-- JsonStorage.clearProcessedArticles: empties the processed section and
returns the count removed. -/
def clearProcessedArticles (d : StorageData) : StorageData × Nat :=
  ({ d with processedArticles := [] }, d.processedArticles.length)

/-- JsonStorage.clearFailedUrls: empties the failed-url section and returns
the count removed. -/
def clearFailedUrls (d : StorageData) : StorageData × Nat :=
  ({ d with failedUrls := [] }, d.failedUrls.length)

/-! ## Text chunking (src/utils/text.ts, splitText)

JS strings become `List Char`.  `String.prototype.trim` removes leading and
trailing whitespace; the whitespace characters relevant to this code base
are the ASCII ones plus NBSP and the BOM. -/

/-- Abbreviation for the model of a JS string. -/
abbrev Str := List Char

/-- Characters removed by `String.prototype.trim`. -/
def isJsWhitespace (c : Char) : Bool :=
  c == ' ' || c == '\t' || c == '\n' || c == '\r' ||
  c == '\x0b' || c == '\x0c' || c == ' ' || c == '﻿'

/-- Model of `s.trim()`: drop whitespace from both ends. -/
def jsTrim (s : Str) : Str :=
  ((s.dropWhile isJsWhitespace).reverse.dropWhile isJsWhitespace).reverse

/-- Model of `text.split(sep)` for the two-character separator used by
splitText: pieces between leftmost non-overlapping occurrences of a blank
line. -/
def splitParasAux (cur : Str) : Str → List Str
  | [] => [cur.reverse]
  | '\n' :: '\n' :: rest => cur.reverse :: splitParasAux [] rest
  | c :: rest => splitParasAux (c :: cur) rest

/-- Paragraphs of splitText: blank-line split, empty pieces dropped
(matching the `filter` over trimmed length in the source). -/
def paragraphsOf (text : Str) : List Str :=
  (splitParasAux [] text).filter (fun p => jsTrim p ≠ [])

/-- Sentence terminators of the lookbehind split in splitText. -/
def sentenceTerminators : List Char := [ '。', '．', '！', '？']

/-- Model of the lookbehind split: break after every terminator,
keeping the terminator with the piece before the break. -/
def splitSentencesAux (cur : Str) : Str → List Str
  | [] => [cur.reverse]
  | c :: rest =>
    if c ∈ sentenceTerminators then
      (c :: cur).reverse :: splitSentencesAux [] rest
    else splitSentencesAux (c :: cur) rest

/-- Sentences of an over-long paragraph: lookbehind split, empty pieces
dropped (matching the `filter` over trimmed length in the source). -/
def sentencesOf (p : Str) : List Str :=
  (splitSentencesAux [] p).filter (fun s => jsTrim s ≠ [])

/-- Loop body of the inner sentence loop of splitText.  State is
(chunks so far, currentChunk).  When the sentence does not fit on top of
the current chunk, the current chunk is flushed (when non-empty) and the
sentence itself is pushed as a chunk of its own, clearing the accumulator;
otherwise the sentence is appended to the accumulator. -/
def pushSentence (maxChunkSize : Nat) (st : List Str × Str) (s : Str) :
    List Str × Str :=
  if maxChunkSize < st.2.length + s.length then
    (st.1 ++ (if 0 < st.2.length then [jsTrim st.2] else []) ++ [jsTrim s],
      [])
  else (st.1, st.2 ++ s)

/-- Loop body of the outer paragraph loop of splitText.  An over-long
paragraph is handed to the sentence loop; otherwise the paragraph either
overflows the accumulator (flush, restart with the paragraph) or is joined
onto it with a blank-line separator (the separator is not counted by the
length check of the source). -/
def pushParagraph (maxChunkSize : Nat) (st : List Str × Str) (p : Str) :
    List Str × Str :=
  if maxChunkSize < p.length then
    (sentencesOf p).foldl (pushSentence maxChunkSize) st
  else if maxChunkSize < st.2.length + p.length then
    (st.1 ++ [jsTrim st.2], p)
  else
    (st.1, if st.2 = [] then p else st.2 ++ '\n' :: '\n' :: p)

/-- splitText (src/utils/text.ts): blank strings give no chunks; otherwise
fold the paragraph loop and flush the trailing accumulator. -/
def splitText (maxChunkSize : Nat) (text : Str) : List Str :=
  if jsTrim text = [] then []
  else
    let st := (paragraphsOf text).foldl (pushParagraph maxChunkSize) ([], [])
    if 0 < st.2.length then st.1 ++ [jsTrim st.2] else st.1

/-! ## Content truncation (src/utils/article-fetcher.ts, truncateContent)

`Math.max` over `lastIndexOf` results is integer arithmetic; the single
float comparison `lastPeriod > maxLength * 0.7` is modelled at the exact
rational scale `7 * maxLength < 10 * lastPeriod`, which agrees with the JS
double computation at the only call-site value (maxLength = 5000, where
`5000 * 0.7` is exactly 3500). -/

/-- Model of `s.lastIndexOf(ch)`: greatest index of the character, -1 when
absent. -/
def lastIndexOfCharAux (ch : Char) : Nat → Int → Str → Int
  | _, acc, [] => acc
  | i, acc, c :: rest =>
    lastIndexOfCharAux ch (i + 1) (if c == ch then (i : Int) else acc) rest

/-- Model of `s.lastIndexOf(ch)` starting at index 0. -/
def lastIndexOfChar (s : Str) (ch : Char) : Int :=
  lastIndexOfCharAux ch 0 (-1) s

/-- truncateContent (src/utils/article-fetcher.ts): cut at maxLength, then
back up to the last sentence end when it lies past 70 percent of the
budget, else append an ellipsis. -/
def truncateContent (text : Str) (maxLength : Nat) : Str :=
  if text.length ≤ maxLength then text
  else
    let truncated := text.take maxLength
    let lastPeriod :=
      max (lastIndexOfChar truncated '。')
        (max (lastIndexOfChar truncated '．')
          (max (lastIndexOfChar truncated '！')
            (max (lastIndexOfChar truncated '？')
              (lastIndexOfChar truncated '\n'))))
    if 7 * (maxLength : Int) < 10 * lastPeriod then
      truncated.take (lastPeriod + 1).toNat
    else truncated ++ [ '.', '.', '.']

/-! ## Quota fetch loop (src/pipeline/index.ts, fetchArticleContentsWithFallback)

Only the Article fields this code path reads are carried.  The network
outcome of one candidate is the parameter `fetch : String → Except String
Str`: `Except.ok c` models `fetchArticleContent` resolving with a truthy
`textContent` `c`, `Except.error e` collapses the two failure paths of the
source (a falsy `textContent`, giving the fixed message, and a thrown
error, giving its message).  `Promise.all` over a batch resolves with the
results in batch order, which the per-batch `map` over `batchResults`
consumes in order.  The `for` loop stepping by the fixed batch size 3 is
realised by matching three candidates at a time; a shorter final batch is
the catch-all case.  The third output component is the list of candidates
for which a fetch was issued. -/

structure Article where
  id : String
  url : String
  title : String
deriving DecidableEq

/-- Model of the object spread adding fetchedContent to an article. -/
structure ArticleWithContent where
  article : Article
  fetchedContent : Str
deriving DecidableEq

/-- Success outcome of one candidate of a batch: the article enriched with
the truncated content, as pushed onto `results`. -/
def fetchSuccess (fetch : String → Except String Str) (a : Article) :
    Option ArticleWithContent :=
  match fetch a.url with
  | .ok c => some ⟨a, truncateContent c 5000⟩
  | .error _ => none

/-- Failure outcome of one candidate of a batch: the url and error message,
as pushed onto `failedUrls`. -/
def fetchFailure (fetch : String → Except String Str) (a : Article) :
    Option (String × String) :=
  match fetch a.url with
  | .ok _ => none
  | .error e => some (a.url, e)

/-- Output of the quota fetch loop: accumulated successes, accumulated
failures, and the candidates that were actually fetched. -/
structure FetchLoopOut where
  results : List ArticleWithContent
  failedUrls : List (String × String)
  fetched : List Article
deriving DecidableEq

/-- The batched loop of fetchArticleContentsWithFallback: take candidates
three at a time, append the batch successes and failures, and stop as soon
as the success count has reached the target after a batch. -/
def quotaFetchAux (fetch : String → Except String Str) (targetCount : Nat)
    (results : List ArticleWithContent)
    (failed : List (String × String)) :
    List Article → FetchLoopOut
  | [] => ⟨results, failed, []⟩
  | a :: b :: c :: rest =>
    let results2 := results ++ [a, b, c].filterMap (fetchSuccess fetch)
    let failed2 := failed ++ [a, b, c].filterMap (fetchFailure fetch)
    if targetCount ≤ results2.length then ⟨results2, failed2, [a, b, c]⟩
    else
      let out := quotaFetchAux fetch targetCount results2 failed2 rest
      ⟨out.results, out.failedUrls, a :: b :: c :: out.fetched⟩
  | l =>
    ⟨results ++ l.filterMap (fetchSuccess fetch),
      failed ++ l.filterMap (fetchFailure fetch), l⟩

/-- fetchArticleContentsWithFallback: run the batched loop from empty
accumulators and truncate the successes to the target count. -/
def fetchArticleContentsWithFallback (fetch : String → Except String Str)
    (articles : List Article) (targetCount : Nat) : FetchLoopOut :=
  let out := quotaFetchAux fetch targetCount [] [] articles
  ⟨out.results.take targetCount, out.failedUrls, out.fetched⟩

/-! ## Ordered concurrent synthesizer (src/pipeline/index.ts, generateAudio)

The chunk loop steps by `concurrency` and, per window, dispatches the
synthesis of every chunk with its absolute index attached, then writes
each result into the pre-sized result array at that index.  The window
recursion is realised with an explicit fuel equal to the remaining chunk
count; since every iteration with a positive `concurrency` consumes at
least one chunk, the fuel is never exhausted in the cases the theorems
cover (a zero `concurrency` makes the source loop diverge, so all
statements assume it positive).  The result array is modelled as a map
from indices to optional buffers, a write as a pointwise update. -/

/-- Index-tagged synthesis results of one window starting at the given
absolute offset: the model of the mapped batch handed to `Promise.all`. -/
def windowPairsFrom (synth : Str → β) (off : Nat) : List Str → List (Nat × β)
  | [] => []
  | ch :: rest => (off, synth ch) :: windowPairsFrom synth (off + 1) rest

/-- Write a list of index-tagged buffers into the result array, in list
order; this is the `for` loop over `batchResults`. -/
def applyWrites (init : Nat → Option β) (ps : List (Nat × β)) :
    Nat → Option β :=
  ps.foldl (fun f p => Function.update f p.1 (some p.2)) init

/-- Window loop of generateAudio: slice the next `concurrency` chunks,
synthesize them as one window with absolute indices, advance the offset by
`concurrency`.  The fuel argument bounds the number of iterations. -/
def audioPairsAux (synth : Str → β) (concurrency : Nat) :
    Nat → Nat → List Str → List (Nat × β)
  | _, _, [] => []
  | 0, _, _ :: _ => []
  | fuel + 1, off, ch :: rest =>
    windowPairsFrom synth off ((ch :: rest).take concurrency) ++
      audioPairsAux synth concurrency fuel (off + concurrency)
        ((ch :: rest).drop concurrency)

/-- All index-tagged synthesis results of generateAudio, in dispatch
order. -/
def audioPairs (synth : Str → β) (concurrency : Nat) (chunks : List Str) :
    List (Nat × β) :=
  audioPairsAux synth concurrency chunks.length 0 chunks

/-- The filled result array of generateAudio after all windows completed
(every synthesis call succeeding). -/
def generateAudioBuffers (synth : Str → β) (concurrency : Nat)
    (chunks : List Str) : Nat → Option β :=
  applyWrites (fun _ => none) (audioPairs synth concurrency chunks)

/-- The window partition walked by the loop of generateAudio: consecutive
slices of `concurrency` chunks.  Same fuel discipline as audioPairsAux. -/
def windowsAux (concurrency : Nat) : Nat → List α → List (List α)
  | _, [] => []
  | 0, _ :: _ => []
  | fuel + 1, x :: rest =>
    (x :: rest).take concurrency ::
      windowsAux concurrency fuel ((x :: rest).drop concurrency)

/-- Window partition of the chunk list. -/
def windows (concurrency : Nat) (l : List α) : List (List α) :=
  windowsAux concurrency l.length l

/-- Synthesis of one window when the TTS call may fail: `Promise.all`
rejects as soon as any member rejects, modelled deterministically with the
leftmost error; on success it resolves with the index-tagged buffers in
batch order. -/
def synthWindow (synth : Str → Except String β) (off : Nat) :
    List Str → Except String (List (Nat × β))
  | [] => .ok []
  | ch :: rest =>
    match synth ch with
    | .error e => .error e
    | .ok b =>
      match synthWindow synth (off + 1) rest with
      | .error e => .error e
      | .ok ps => .ok ((off, b) :: ps)

/-- Window loop of generateAudio with fallible synthesis: an error in any
window aborts the loop and propagates; otherwise the window results are
written at their indices and the loop advances. -/
def generateAudioAux (synth : Str → Except String β) (concurrency : Nat) :
    Nat → Nat → (Nat → Option β) → List Str →
      Except String (Nat → Option β)
  | _, _, buf, [] => .ok buf
  | 0, _, buf, _ :: _ => .ok buf
  | fuel + 1, off, buf, ch :: rest =>
    match synthWindow synth off ((ch :: rest).take concurrency) with
    | .error e => .error e
    | .ok ps =>
      generateAudioAux synth concurrency fuel (off + concurrency)
        (applyWrites buf ps) ((ch :: rest).drop concurrency)

/-- The synthesis stage of generateAudio over a chunk list: either the
filled result array or the first propagated synthesis error. -/
def generateAudioRun (synth : Str → Except String β) (concurrency : Nat)
    (chunks : List Str) : Except String (Nat → Option β) :=
  generateAudioAux synth concurrency chunks.length 0 (fun _ => none) chunks

/-! ## Audio assembler (concatMp3Buffers in src/utils/audio.ts)

Buffers are byte lists.  The ffmpeg concat-demuxer invocation over the
temporary per-segment files (which receives exactly the input buffers, in
order, since JS Buffer objects are always truthy) is abstracted as the
parameter `mux`; the Bool output records whether that assembly path ran. -/

/-- Model of a binary audio buffer. -/
abbrev Buf := List Nat

/-- concatMp3Buffers: empty input gives an empty buffer, a single buffer is
returned as-is, two or more run the temp-file / manifest / ffmpeg
assembly. -/
def concatMp3Buffers (mux : List Buf → Buf) (buffers : List Buf) :
    Buf × Bool :=
  match buffers with
  | [] => ([], false)
  | [b] => (b, false)
  | bs => (mux bs, true)

/-! ## Pipeline run (src/pipeline/index.ts, Pipeline.run)

The external collaborators are parameters: the collected article pool, the
LLM selector (as the function from the filtered pool to the priority-ordered
selection), the article fetch outcome, the script generator and the TTS
synthesis outcome.  File paths, logging and the RSS enclosure details are
outside the model; the observable effects of a run are captured in
RunEffects: whether an episode was published (by id), which articles were
marked processed, and the final storage ledger (which the quota stage also
updates through markUrlAsFailed).  The try/catch of `run` converts the only
fallible modelled stage, audio synthesis, into the structured failure
result; every other exit is one of the early success returns of the
source. -/

structure Script where
  id : String
  title : String
  content : Str
deriving DecidableEq

structure PipelineResult where
  success : Bool
  episodeId : Option String
  episodeTitle : Option String
  scriptPath : Option String
  articleCount : Nat
  error : Option String
deriving DecidableEq

structure RunEffects where
  published : Option String
  markedProcessed : List String
  storage : StorageData
deriving DecidableEq

/-- The early `return (success, articleCount 0)` object of Pipeline.run. -/
def emptyRunResult : PipelineResult :=
  ⟨true, none, none, none, 0, none⟩

/-- Step 2 of Pipeline.run: drop already-processed articles and urls still
inside the failed-url cooldown (default retention 7 days). -/
def newArticlesOf (storage : StorageData) (collected : List Article)
    (now : Int) : List Article :=
  collected.filter (fun a =>
    !(isProcessed storage a.id) && !(isUrlFailed storage a.url 7 now))

/-- Pipeline.run, from collection through publication.  `β` is the type of
synthesized audio buffers. -/
def runModel (storage : StorageData) (collected : List Article)
    (select : List Article → List Article)
    (fetch : String → Except String Str) (targetCount : Nat)
    (generateScript : List ArticleWithContent → Script)
    (synth : Str → Except String β) (chunkSize concurrency : Nat)
    (scriptOnly : Bool) (now : Int) : PipelineResult × RunEffects :=
  if collected.length = 0 then
    (emptyRunResult, ⟨none, [], storage⟩)
  else
    let newArticles := newArticlesOf storage collected now
    if newArticles.length = 0 then (emptyRunResult, ⟨none, [], storage⟩)
    else
      let selected := select newArticles
      if selected.length = 0 then (emptyRunResult, ⟨none, [], storage⟩)
      else
        let fr := fetchArticleContentsWithFallback fetch selected targetCount
        let storage1 := fr.failedUrls.foldl
          (fun st p => (markUrlAsFailed st p.1 p.2 now).1) storage
        if fr.results.length = 0 then
          (emptyRunResult, ⟨none, [], storage1⟩)
        else
          let script := generateScript fr.results
          if scriptOnly then
            (⟨true, some script.id, some script.title,
                some (script.id ++ ".txt"), fr.results.length, none⟩,
              ⟨none, [], storage1⟩)
          else
            match generateAudioRun synth concurrency
                (splitText chunkSize script.content) with
            | .error e =>
              (⟨false, none, none, none, 0, some e⟩, ⟨none, [], storage1⟩)
            | .ok _ =>
              let storage2 := fr.results.foldl
                (fun st awc =>
                  (markAsProcessed st
                    ⟨awc.article.id, awc.article.url, awc.article.title⟩
                    now (some script.id)).1) storage1
              (⟨true, some script.id, some script.title,
                  some (script.id ++ ".txt"), fr.results.length, none⟩,
                ⟨some script.id,
                  fr.results.map (fun awc => awc.article.id), storage2⟩)

/-- The corrected chunk bound: a chunk stays within the budget plus the two
blank-line separator characters the length check of the source does not
count, unless it is the trim of a single sentence that alone exceeds the
budget. -/
def chunkWithinLimit (maxChunkSize : Nat) (paras : List Str) (c : Str) :
    Prop :=
  c.length ≤ maxChunkSize + 2 ∨
    ∃ p ∈ paras, maxChunkSize < p.length ∧
      ∃ s ∈ sentencesOf p, c = jsTrim s ∧ maxChunkSize < s.length

/-- Invariant of the splitText fold: every emitted chunk satisfies the
corrected bound and the accumulator stays within the budget plus the two
uncounted separator characters. -/
def splitInv (maxChunkSize : Nat) (paras : List Str)
    (st : List Str × Str) : Prop :=
  (∀ c ∈ st.1, chunkWithinLimit maxChunkSize paras c) ∧
    st.2.length ≤ maxChunkSize + 2


/-- Comparison definition following the words of the specification (not the
source): at the sentence level the same greedy accumulation as at the
paragraph level, where only a sentence that alone exceeds the limit becomes
its own chunk, and a sentence that merely overflows the current chunk
flushes it and starts the next accumulating chunk. -/
def pushSentenceSpec (maxChunkSize : Nat) (st : List Str × Str) (s : Str) :
    List Str × Str :=
  if maxChunkSize < s.length then
    (st.1 ++ (if 0 < st.2.length then [jsTrim st.2] else []) ++ [jsTrim s],
      [])
  else if maxChunkSize < st.2.length + s.length then
    (st.1 ++ (if 0 < st.2.length then [jsTrim st.2] else []), s)
  else (st.1, st.2 ++ s)

/-- Comparison definition following the words of the specification: the
paragraph loop with the spec-worded sentence loop. -/
def pushParagraphSpec (maxChunkSize : Nat) (st : List Str × Str)
    (p : Str) : List Str × Str :=
  if maxChunkSize < p.length then
    (sentencesOf p).foldl (pushSentenceSpec maxChunkSize) st
  else if maxChunkSize < st.2.length + p.length then
    (st.1 ++ [jsTrim st.2], p)
  else
    (st.1, if st.2 = [] then p else st.2 ++ '\n' :: '\n' :: p)

/-- Comparison definition following the words of the specification: the
whole splitter with spec-worded greedy sentence accumulation. -/
def splitTextSpecGreedy (maxChunkSize : Nat) (text : Str) : List Str :=
  if jsTrim text = [] then []
  else
    let st := (paragraphsOf text).foldl (pushParagraphSpec maxChunkSize)
      ([], [])
    if 0 < st.2.length then st.1 ++ [jsTrim st.2] else st.1


/-- Invariant of the batched quota loop relating its output to the input
candidate list: the fetched candidates are a prefix, the accumulated
successes are the successes of that prefix in order, the loop stopped only
by quota or exhaustion, full batches have size 3, and before every batch
that was issued after the first the quota had not yet been reached. -/
def quotaSpec (fetch : String → Except String Str) (tgt : Nat)
    (results : List ArticleWithContent) (l : List Article)
    (out : FetchLoopOut) : Prop :=
  out.fetched = l.take out.fetched.length ∧
  out.results = results ++ out.fetched.filterMap (fetchSuccess fetch) ∧
  (tgt ≤ out.results.length ∨ out.fetched.length = l.length) ∧
  (out.fetched.length % 3 = 0 ∨ out.fetched.length = l.length) ∧
  (∀ j, 0 < j → 3 * j < out.fetched.length →
    results.length +
      ((l.take (3 * j)).filterMap (fetchSuccess fetch)).length < tgt)


/-- Candidate pool for the claim C1 witness: ten articles in priority
order. -/
def witnessArticlesC1 : List Article :=
  [⟨ "a1", "u1", "t1"⟩, ⟨ "a2", "u2", "t2"⟩, ⟨ "a3", "u3", "t3"⟩,
    ⟨ "a4", "u4", "t4"⟩, ⟨ "a5", "u5", "t5"⟩, ⟨ "a6", "u6", "t6"⟩,
    ⟨ "a7", "u7", "t7"⟩, ⟨ "a8", "u8", "t8"⟩, ⟨ "a9", "u9", "t9"⟩,
    ⟨ "a10", "u10", "t10"⟩]

/-- Fetch outcome for the claim C1 witness: odd-position urls succeed,
even-position urls fail. -/
def witnessFetchC1 : String → Except String Str := fun u =>
  if u ∈ ([ "u1", "u3", "u5", "u7", "u9"] : List String) then
    Except.ok ( "c".toList)
  else Except.error "e"


/-- Concrete inputs for the claim C3 witness. -/
def witnessCollectedC3 : List Article := [⟨ "a1", "u1", "t1"⟩]

/-- Fetch outcome for the claim C3 witness: always succeeds. -/
def witnessFetchC3 : String → Except String Str := fun _ =>
  Except.ok ( "x。".toList)

/-- Script generator for the claim C3 witness. -/
def witnessScriptGenC3 : List ArticleWithContent → Script := fun _ =>
  ⟨ "ep", "T", "abc".toList⟩

/-- Synthesizer for the claim C3 witness: every chunk fails. -/
def witnessSynthC3 : Str → Except String Nat := fun _ =>
  Except.error "boom"

/-! ## Claim C9: assembler degenerate cases -/

/-- Claim C9: concatMp3Buffers returns an empty result for zero input
segments, returns the single segment byte-identically with no assembly
work for exactly one segment, and performs the temp-file/manifest/mux
assembly exactly when there are two or more segments. -/
theorem claim_C9 (mux : List Buf → Buf) :
    concatMp3Buffers mux [] = ([], false) ∧
    (∀ b : Buf, concatMp3Buffers mux [b] = (b, false)) ∧
    (∀ bs : List Buf, 2 ≤ bs.length →
      concatMp3Buffers mux bs = (mux bs, true)) := by
  refine ⟨rfl, fun b => rfl, fun bs h => ?_⟩
  match bs with
  | [] => simp at h
  | [b] => simp at h
  | b1 :: b2 :: rest => rfl

/-- Witness for claim C9 at a concrete two-segment input. -/
theorem claim_C9_witness :
    2 ≤ ([[1], [2]] : List Buf).length ∧
    concatMp3Buffers List.flatten [[1], [2]] = (List.flatten [[1], [2]], true) :=
  ⟨by decide, (claim_C9 List.flatten).2.2 [[1], [2]] (by decide)⟩

/-! ## Claim C10: the two ledger sections are mutually framed -/

/-- Claim C10: markUrlAsFailed, cleanupFailedUrls and clearFailedUrls leave
the processedArticles section unchanged, and markAsProcessed, cleanup and
clearProcessedArticles leave the failedUrls section unchanged, from every
starting ledger state. -/
theorem claim_C10 (d : StorageData) (url err : String) (r now now2 : Int)
    (a : ArticleKey) (eid : Option String) :
    (markUrlAsFailed d url err now).1.processedArticles =
        d.processedArticles ∧
    (cleanupFailedUrls d r now).1.processedArticles = d.processedArticles ∧
    (clearFailedUrls d).1.processedArticles = d.processedArticles ∧
    (markAsProcessed d a now2 eid).1.failedUrls = d.failedUrls ∧
    (cleanup d r now).1.failedUrls = d.failedUrls ∧
    (clearProcessedArticles d).1.failedUrls = d.failedUrls := by
  refine ⟨rfl, rfl, rfl, ?_, rfl, rfl⟩
  unfold markAsProcessed
  split <;> rfl

/-! ## Claim C6: failed-url cooldown check -/

/-- Counterexample to claim C6 as stated: at the exact boundary where the
record's age equals the retention window (failedAt 0, now 7, retention 7),
the code returns true because it keeps records with
`failedAt >= cutoffDate`, while the claimed condition
`now - failedAt < retentionDays` is false there. -/
theorem claim_C6_counterexample :
    isUrlFailed ⟨[], [⟨ "u", "e", 0, 1⟩]⟩ "u" 7 7 = true ∧
    ¬ ((7 : Int) - 0 < 7) := by decide

/-- Claim C6 as amended: isUrlFailed is true iff a record for the url
exists and its age is at most (not strictly less than) retentionDays,
i.e. `failedAt >= now - retentionDays`; in particular a record strictly
older than the window makes it return false (and the function only reads
the ledger, deleting nothing). -/
theorem claim_C6_amended (d : StorageData) (url : String)
    (retentionDays now : Int) :
    (isUrlFailed d url retentionDays now = true ↔
      ∃ f, d.failedUrls.find? (fun g => g.url == url) = some f ∧
        now - f.failedAt ≤ retentionDays) ∧
    (∀ f, d.failedUrls.find? (fun g => g.url == url) = some f →
      retentionDays < now - f.failedAt →
      isUrlFailed d url retentionDays now = false) := by
  constructor
  · unfold isUrlFailed
    cases h : d.failedUrls.find? (fun g => g.url == url) with
    | none => simp
    | some f =>
      simp only [decide_eq_true_eq]
      constructor
      · intro h2
        exact ⟨f, rfl, by omega⟩
      · rintro ⟨g, hg, h3⟩
        cases Option.some.inj hg
        omega
  · intro f hf h2
    simp only [isUrlFailed, hf, decide_eq_false_iff_not]
    omega

/-- Witness for claim C6 as amended: a record 10 days old is outside a
7-day window and isUrlFailed rejects it. -/
theorem claim_C6_witness :
    (([⟨ "u", "e", 0, 1⟩] : List FailedUrl).find?
        (fun g => g.url == "u") = some ⟨ "u", "e", 0, 1⟩ ∧
      (7 : Int) < 10 - 0) ∧
    isUrlFailed ⟨[], [⟨ "u", "e", 0, 1⟩]⟩ "u" 7 10 = false :=
  ⟨⟨by decide, by decide⟩,
    (claim_C6_amended ⟨[], [⟨ "u", "e", 0, 1⟩]⟩ "u" 7 10).2
      ⟨ "u", "e", 0, 1⟩ (by decide) (by decide)⟩

/-! ## Claim C7: markAsProcessed is idempotent -/

/-- Helper: isProcessed is positivity of the count of records with the
id. -/
theorem isProcessed_iff_countP_pos (d : StorageData) (i : String) :
    isProcessed d i = true ↔
      0 < d.processedArticles.countP (fun r => r.id == i) := by
  rw [isProcessed, List.any_eq_true, List.countP_pos_iff]

/-- Claim C7: from any ledger in which the candidate id occurs at most once
(the invariant markAsProcessed itself maintains), the second call with the
same id is a no-op that does not even save, and after two calls exactly one
record with that id is in the ledger. -/
theorem claim_C7 (d : StorageData) (a : ArticleKey) (now1 now2 : Int)
    (eid1 eid2 : Option String)
    (h : d.processedArticles.countP (fun r => r.id == a.id) ≤ 1) :
    markAsProcessed (markAsProcessed d a now1 eid1).1 a now2 eid2 =
      ((markAsProcessed d a now1 eid1).1, false) ∧
    (markAsProcessed d a now1 eid1).1.processedArticles.countP
      (fun r => r.id == a.id) = 1 := by
  have hkey : ∀ (dd : StorageData) (n : Int) (e : Option String),
      isProcessed dd a.id = true → markAsProcessed dd a n e = (dd, false) := by
    intro dd n e hdd
    simp [markAsProcessed, hdd]
  by_cases hp : isProcessed d a.id = true
  · have hpos := (isProcessed_iff_countP_pos d a.id).mp hp
    rw [hkey d now1 eid1 hp]
    refine ⟨hkey d now2 eid2 hp, ?_⟩
    show d.processedArticles.countP (fun r => r.id == a.id) = 1
    omega
  · have hzero : d.processedArticles.countP (fun r => r.id == a.id) = 0 := by
      by_contra hne
      exact hp ((isProcessed_iff_countP_pos d a.id).mpr (by omega))
    have e1 : markAsProcessed d a now1 eid1 =
        ({ d with processedArticles := d.processedArticles ++
            [⟨a.id, a.url, a.title, now1, eid1⟩] }, true) := by
      simp [markAsProcessed, hp]
    have hp2 : isProcessed
        { d with processedArticles := d.processedArticles ++
            [⟨a.id, a.url, a.title, now1, eid1⟩] } a.id = true := by
      rw [isProcessed_iff_countP_pos]
      simp [List.countP_append, List.countP_cons]
    rw [e1]
    refine ⟨hkey _ now2 eid2 hp2, ?_⟩
    simp [List.countP_append, List.countP_cons, hzero]

/-- Witness for claim C7 at the empty ledger. -/
theorem claim_C7_witness :
    ((⟨[], []⟩ : StorageData).processedArticles.countP
        (fun r => r.id == "a1") ≤ 1) ∧
    (markAsProcessed
        (markAsProcessed ⟨[], []⟩ ⟨ "a1", "u1", "t1"⟩ 0 none).1
        ⟨ "a1", "u1", "t1"⟩ 1 none =
      ((markAsProcessed ⟨[], []⟩ ⟨ "a1", "u1", "t1"⟩ 0 none).1, false) ∧
      (markAsProcessed ⟨[], []⟩ ⟨ "a1", "u1", "t1"⟩ 0
          none).1.processedArticles.countP (fun r => r.id == "a1") = 1) :=
  ⟨by decide,
    claim_C7 ⟨[], []⟩ ⟨ "a1", "u1", "t1"⟩ 0 1 none none (by decide)⟩

/-! ## Claim C8: markUrlAsFailed is an upsert -/

/-- Helper: the first record for the url after the upsert carries the new
error and timestamp and the incremented (or initial) failure count. -/
theorem upsertFailed_find (url err : String) (now : Int)
    (l : List FailedUrl) :
    (upsertFailed url err now l).find? (fun g => g.url == url) =
      some ⟨url, err, now,
        match l.find? (fun g => g.url == url) with
        | some f => f.failureCount + 1
        | none => 1⟩ := by
  induction l with
  | nil => simp [upsertFailed]
  | cons f fs ih =>
    by_cases hf : f.url == url
    · have hurl : f.url = url := eq_of_beq hf
      simp [upsertFailed, hf, List.find?, hurl]
    · have e1 : upsertFailed url err now (f :: fs) =
          f :: upsertFailed url err now fs := by
        simp [upsertFailed, hf]
      have hf2 : (f.url == url) = false := by simpa using hf
      rw [e1]
      simp only [List.find?_cons, hf2, ih]

/-- Helper: records of other urls are untouched by the upsert. -/
theorem upsertFailed_filter_ne (url err : String) (now : Int)
    (l : List FailedUrl) :
    (upsertFailed url err now l).filter (fun g => !(g.url == url)) =
      l.filter (fun g => !(g.url == url)) := by
  induction l with
  | nil => simp [upsertFailed]
  | cons f fs ih =>
    by_cases hf : f.url == url
    · simp [upsertFailed, hf]
    · simp [upsertFailed, hf, ih]

/-- Helper: the upsert leaves exactly one record for the url when there was
at most one before. -/
theorem upsertFailed_countP (url err : String) (now : Int)
    (l : List FailedUrl)
    (h : l.countP (fun g => g.url == url) ≤ 1) :
    (upsertFailed url err now l).countP (fun g => g.url == url) = 1 := by
  induction l with
  | nil => simp [upsertFailed]
  | cons f fs ih =>
    by_cases hf : f.url == url
    · have h2 : fs.countP (fun g => g.url == url) = 0 := by
        have := List.countP_cons_of_pos (fun g => g.url == url)
          (l := fs) hf
        omega
      simp [upsertFailed, hf, List.countP_cons_of_pos, h2]
    · have h2 : fs.countP (fun g => g.url == url) ≤ 1 := by
        have := List.countP_cons_of_neg (fun g => g.url == url)
          (l := fs) (by simpa using hf)
        omega
      simp [upsertFailed, hf, List.countP_cons_of_neg, ih h2,
        List.countP_cons]

/-- Helper: counts of other urls are preserved by the upsert. -/
theorem upsertFailed_countP_other (url err : String) (now : Int)
    (l : List FailedUrl) (v : String) (hv : v ≠ url) :
    (upsertFailed url err now l).countP (fun g => g.url == v) =
      l.countP (fun g => g.url == v) := by
  induction l with
  | nil =>
    have : (url == v) = false := by
      simpa using fun hc => hv hc.symm
    simp [upsertFailed, List.countP_cons, this]
  | cons f fs ih =>
    by_cases hf : f.url == url
    · simp [upsertFailed, hf, List.countP_cons, ih]
    · simp [upsertFailed, hf, List.countP_cons, ih]

/-- Claim C8: markUrlAsFailed always persists; it overwrites the first
record of the url with the new error and timestamp and increments its
failureCount, or inserts a fresh record with failureCount 1 when none
exists; records of other urls are untouched; and starting from at most one
record for the url it leaves exactly one (so uniqueness per url is an
invariant). -/
theorem claim_C8 (d : StorageData) (url err : String) (now : Int) :
    (markUrlAsFailed d url err now).2 = true ∧
    ((markUrlAsFailed d url err now).1.failedUrls.find?
        (fun g => g.url == url) =
      some ⟨url, err, now,
        match d.failedUrls.find? (fun g => g.url == url) with
        | some f => f.failureCount + 1
        | none => 1⟩) ∧
    ((markUrlAsFailed d url err now).1.failedUrls.filter
        (fun g => !(g.url == url)) =
      d.failedUrls.filter (fun g => !(g.url == url))) ∧
    (d.failedUrls.countP (fun g => g.url == url) ≤ 1 →
      (markUrlAsFailed d url err now).1.failedUrls.countP
        (fun g => g.url == url) = 1) ∧
    (∀ v, v ≠ url →
      (markUrlAsFailed d url err now).1.failedUrls.countP
          (fun g => g.url == v) =
        d.failedUrls.countP (fun g => g.url == v)) :=
  ⟨rfl, upsertFailed_find url err now d.failedUrls,
    upsertFailed_filter_ne url err now d.failedUrls,
    upsertFailed_countP url err now d.failedUrls,
    fun v hv => upsertFailed_countP_other url err now d.failedUrls v hv⟩

/-- Witness for claim C8 at a ledger holding one record for the url. -/
theorem claim_C8_witness :
    ((⟨[], [⟨ "u", "old", 0, 2⟩]⟩ : StorageData).failedUrls.countP
        (fun g => g.url == "u") ≤ 1 ∧ "w" ≠ "u") ∧
    ((markUrlAsFailed ⟨[], [⟨ "u", "old", 0, 2⟩]⟩ "u" "new"
        5).1.failedUrls.countP (fun g => g.url == "u") = 1 ∧
      (markUrlAsFailed ⟨[], [⟨ "u", "old", 0, 2⟩]⟩ "u" "new"
          5).1.failedUrls.countP (fun g => g.url == "w") =
        (⟨[], [⟨ "u", "old", 0, 2⟩]⟩ : StorageData).failedUrls.countP
          (fun g => g.url == "w")) :=
  ⟨⟨by decide, by decide⟩,
    (claim_C8 ⟨[], [⟨ "u", "old", 0, 2⟩]⟩ "u" "new" 5).2.2.2.1 (by decide),
    (claim_C8 ⟨[], [⟨ "u", "old", 0, 2⟩]⟩ "u" "new" 5).2.2.2.2 "w"
      (by decide)⟩

/-! ## Claim C4: chunk size bound of splitText -/

/-- Helper: trimming never lengthens a string. -/
theorem jsTrim_length_le (s : Str) : (jsTrim s).length ≤ s.length := by
  unfold jsTrim
  calc ((s.dropWhile isJsWhitespace).reverse.dropWhile
          isJsWhitespace).reverse.length
      = ((s.dropWhile isJsWhitespace).reverse.dropWhile
          isJsWhitespace).length := by rw [List.length_reverse]
    _ ≤ (s.dropWhile isJsWhitespace).reverse.length :=
        (List.dropWhile_sublist _).length_le
    _ = (s.dropWhile isJsWhitespace).length := by rw [List.length_reverse]
    _ ≤ s.length := (List.dropWhile_sublist _).length_le

/-- Helper: one step of the sentence loop preserves the invariant. -/
theorem pushSentence_inv (maxChunkSize : Nat) (paras : List Str) (p : Str)
    (hp : p ∈ paras) (hpl : maxChunkSize < p.length) (s : Str)
    (hs : s ∈ sentencesOf p) (st : List Str × Str)
    (h : splitInv maxChunkSize paras st) :
    splitInv maxChunkSize paras (pushSentence maxChunkSize st s) := by
  obtain ⟨hchunks, hcur⟩ := h
  unfold pushSentence
  split
  · constructor
    · intro c hc
      rcases List.mem_append.mp hc with hc1 | hc2
      · rcases List.mem_append.mp hc1 with hc3 | hc4
        · exact hchunks c hc3
        · left
          have hc5 : c = jsTrim st.2 := by
            split at hc4
            · simpa using hc4
            · exact absurd hc4 (List.not_mem_nil c)
          subst hc5
          exact le_trans (jsTrim_length_le st.2) hcur
      · have hc5 : c = jsTrim s := by simpa using hc2
        subst hc5
        by_cases hlen : s.length ≤ maxChunkSize
        · exact Or.inl (le_trans (jsTrim_length_le s) (by omega))
        · exact Or.inr ⟨p, hp, hpl, s, hs, rfl, by omega⟩
    · show ([] : Str).length ≤ maxChunkSize + 2
      simp
  · rename_i hover
    refine ⟨hchunks, ?_⟩
    show (st.2 ++ s).length ≤ maxChunkSize + 2
    simp only [List.length_append]
    omega

/-- Helper: the sentence loop of one over-long paragraph preserves the
invariant. -/
theorem sentences_fold_inv (maxChunkSize : Nat) (paras : List Str)
    (p : Str) (hp : p ∈ paras) (hpl : maxChunkSize < p.length) :
    ∀ ss : List Str, (∀ s ∈ ss, s ∈ sentencesOf p) →
      ∀ st : List Str × Str, splitInv maxChunkSize paras st →
        splitInv maxChunkSize paras
          (ss.foldl (pushSentence maxChunkSize) st) := by
  intro ss
  induction ss with
  | nil => intro _ st h; exact h
  | cons s rest ih =>
    intro hss st h
    exact ih (fun x hx => hss x (List.mem_cons_of_mem s hx))
      (pushSentence maxChunkSize st s)
      (pushSentence_inv maxChunkSize paras p hp hpl s
        (hss s (List.mem_cons_self s rest)) st h)

/-- Helper: one step of the paragraph loop preserves the invariant. -/
theorem pushParagraph_inv (maxChunkSize : Nat) (paras : List Str) (p : Str)
    (hp : p ∈ paras) (st : List Str × Str)
    (h : splitInv maxChunkSize paras st) :
    splitInv maxChunkSize paras (pushParagraph maxChunkSize st p) := by
  obtain ⟨hchunks, hcur⟩ := h
  unfold pushParagraph
  split
  · rename_i hpl
    exact sentences_fold_inv maxChunkSize paras p hp hpl (sentencesOf p)
      (fun s hs => hs) st ⟨hchunks, hcur⟩
  · rename_i hpl
    split
    · rename_i hover
      constructor
      · intro c hc
        rcases List.mem_append.mp hc with hc1 | hc2
        · exact hchunks c hc1
        · have hc3 : c = jsTrim st.2 := by simpa using hc2
          subst hc3
          exact Or.inl (le_trans (jsTrim_length_le st.2) hcur)
      · show p.length ≤ maxChunkSize + 2
        omega
    · rename_i hover
      refine ⟨hchunks, ?_⟩
      show (if st.2 = [] then p
          else st.2 ++ '\n' :: '\n' :: p).length ≤ maxChunkSize + 2
      split
      · omega
      · simp only [List.length_append, List.length_cons]
        omega

/-- Helper: the paragraph fold preserves the invariant. -/
theorem paras_fold_inv (maxChunkSize : Nat) (paras : List Str) :
    ∀ ps : List Str, (∀ p ∈ ps, p ∈ paras) →
      ∀ st : List Str × Str, splitInv maxChunkSize paras st →
        splitInv maxChunkSize paras
          (ps.foldl (pushParagraph maxChunkSize) st) := by
  intro ps
  induction ps with
  | nil => intro _ st h; exact h
  | cons p rest ih =>
    intro hps st h
    exact ih (fun x hx => hps x (List.mem_cons_of_mem p hx))
      (pushParagraph maxChunkSize st p)
      (pushParagraph_inv maxChunkSize paras p
        (hps p (List.mem_cons_self p rest)) st h)

/-- Counterexample to claim C4 as stated: joining two paragraphs inserts a
two-character blank-line separator the length check does not count, so for
budget 10 the input of two five-character paragraphs yields a single chunk
of length 12, while no paragraph (hence no single sentence) exceeds the
budget. -/
theorem claim_C4_counterexample :
    splitText 10 ( "aaaaa\n\nbbbbb".toList) = [ "aaaaa\n\nbbbbb".toList] ∧
    10 < ( "aaaaa\n\nbbbbb".toList).length ∧
    ∀ p ∈ paragraphsOf ( "aaaaa\n\nbbbbb".toList), p.length ≤ 10 := by
  decide

/-- Claim C4 as amended: every chunk of splitText is within maxChunkSize
plus the two uncounted blank-line separator characters, except a chunk that
is the trim of a single sentence which alone exceeds the limit (the greedy
accumulation itself is the definition of pushParagraph, whose length check
does not count the separator). -/
theorem claim_C4_amended (maxChunkSize : Nat) (text : Str) :
    ∀ c ∈ splitText maxChunkSize text,
      chunkWithinLimit maxChunkSize (paragraphsOf text) c := by
  intro c hc
  simp only [splitText] at hc
  split at hc
  · exact absurd hc (List.not_mem_nil c)
  · have hinv := paras_fold_inv maxChunkSize (paragraphsOf text)
      (paragraphsOf text) (fun p hp => hp) ([], [])
      ⟨fun c hc => absurd hc (List.not_mem_nil c), by simp⟩
    split at hc
    · rcases List.mem_append.mp hc with hc1 | hc2
      · exact hinv.1 c hc1
      · have hc3 : c = jsTrim ((paragraphsOf text).foldl
            (pushParagraph maxChunkSize) ([], [])).2 := by simpa using hc2
        subst hc3
        exact Or.inl (le_trans (jsTrim_length_le _) hinv.2)
    · exact hinv.1 c hc

/-- Witness for claim C4 as amended at the separator-overflow input. -/
theorem claim_C4_witness :
    ( "aaaaa\n\nbbbbb".toList ∈
        splitText 10 ( "aaaaa\n\nbbbbb".toList)) ∧
    chunkWithinLimit 10 (paragraphsOf ( "aaaaa\n\nbbbbb".toList))
      ( "aaaaa\n\nbbbbb".toList) :=
  ⟨by decide,
    claim_C4_amended 10 ( "aaaaa\n\nbbbbb".toList)
      ( "aaaaa\n\nbbbbb".toList) (by decide)⟩

/-! ## Claim C5: sentence-level splitting of an over-long paragraph -/

/-- Counterexample to claim C5 as stated: with budget 10 and four
four-character sentences, the code emits the third sentence as its own
chunk even though it does not alone exceed the limit (it merely overflows
the current chunk), and restarts accumulation from empty, whereas the
spec-worded greedy accumulation would start the new chunk with that
sentence and extend it. -/
theorem claim_C5_counterexample :
    splitText 10 ( "aaa。bbb。ccc。ddd。".toList) =
      [ "aaa。bbb。".toList, "ccc。".toList, "ddd。".toList] ∧
    ( "ccc。".toList).length ≤ 10 ∧
    splitTextSpecGreedy 10 ( "aaa。bbb。ccc。ddd。".toList) =
      [ "aaa。bbb。".toList, "ccc。ddd。".toList] := by decide

/-- Helper: the lookbehind split loses no characters. -/
theorem splitSentencesAux_flatten (t : Str) :
    ∀ cur : Str, (splitSentencesAux cur t).flatten = cur.reverse ++ t := by
  induction t with
  | nil => intro cur; simp [splitSentencesAux]
  | cons c rest ih =>
    intro cur
    unfold splitSentencesAux
    split
    · simp [ih]
    · simp [ih]

/-- Helper: terminators occur only as the final character of a sentence
piece. -/
theorem splitSentencesAux_interior (t : Str) :
    ∀ cur : Str, (∀ c ∈ cur, c ∉ sentenceTerminators) →
      ∀ s ∈ splitSentencesAux cur t, ∀ c ∈ s.dropLast,
        c ∉ sentenceTerminators := by
  induction t with
  | nil =>
    intro cur hcur s hs c hc
    have hs2 : s = cur.reverse := by simpa [splitSentencesAux] using hs
    subst hs2
    exact hcur c (by
      have := List.mem_of_mem_dropLast hc
      simpa using this)
  | cons c0 rest ih =>
    intro cur hcur s hs c hc
    unfold splitSentencesAux at hs
    split at hs
    · rcases List.mem_cons.mp hs with hs1 | hs2
      · subst hs1
        have : c ∈ cur.reverse := by
          have h2 : (c0 :: cur).reverse = cur.reverse ++ [c0] := by simp
          rw [h2, List.dropLast_concat] at hc
          exact hc
        exact hcur c (by simpa using this)
      · exact ih [] (by simp) s hs2 c hc
    · rename_i hterm
      exact ih (c0 :: cur)
        (by
          intro x hx
          rcases List.mem_cons.mp hx with hx1 | hx2
          · subst hx1; exact hterm
          · exact hcur x hx2) s hs c hc

/-- Helper: the sentence loop only appends chunks. -/
theorem chunks_subset_pushSentence (maxChunkSize : Nat)
    (st : List Str × Str) (s : Str) :
    st.1 ⊆ (pushSentence maxChunkSize st s).1 := by
  unfold pushSentence
  split
  · exact (List.subset_append_left _ _).trans (List.subset_append_left _ _)
  · exact fun x hx => hx

/-- Helper: the folded sentence loop only appends chunks. -/
theorem chunks_subset_sentences_fold (maxChunkSize : Nat) (ss : List Str) :
    ∀ st : List Str × Str,
      st.1 ⊆ (ss.foldl (pushSentence maxChunkSize) st).1 := by
  induction ss with
  | nil => exact fun st x hx => hx
  | cons s rest ih =>
    intro st
    exact (chunks_subset_pushSentence maxChunkSize st s).trans
      (ih (pushSentence maxChunkSize st s))

/-- Helper: the paragraph loop only appends chunks. -/
theorem chunks_subset_pushParagraph (maxChunkSize : Nat)
    (st : List Str × Str) (p : Str) :
    st.1 ⊆ (pushParagraph maxChunkSize st p).1 := by
  unfold pushParagraph
  split
  · exact chunks_subset_sentences_fold maxChunkSize (sentencesOf p) st
  · split
    · exact List.subset_append_left _ _
    · exact fun x hx => hx

/-- Helper: the folded paragraph loop only appends chunks. -/
theorem chunks_subset_paras_fold (maxChunkSize : Nat) (ps : List Str) :
    ∀ st : List Str × Str,
      st.1 ⊆ (ps.foldl (pushParagraph maxChunkSize) st).1 := by
  induction ps with
  | nil => exact fun st x hx => hx
  | cons p rest ih =>
    intro st
    exact (chunks_subset_pushParagraph maxChunkSize st p).trans
      (ih (pushParagraph maxChunkSize st p))

/-- Helper: a sentence longer than the budget is pushed as its own chunk by
the step that processes it. -/
theorem mem_pushSentence_self (maxChunkSize : Nat) (st : List Str × Str)
    (s : Str) (hlen : maxChunkSize < s.length) :
    jsTrim s ∈ (pushSentence maxChunkSize st s).1 := by
  unfold pushSentence
  rw [if_pos (by omega)]
  simp

/-- Helper: a sentence longer than the budget appears among the chunks of
the folded sentence loop that contains it. -/
theorem mem_sentences_fold (maxChunkSize : Nat) (s : Str)
    (hlen : maxChunkSize < s.length) (ss : List Str) :
    ∀ st : List Str × Str, s ∈ ss →
      jsTrim s ∈ (ss.foldl (pushSentence maxChunkSize) st).1 := by
  induction ss with
  | nil => intro st hs; exact absurd hs (List.not_mem_nil s)
  | cons s0 rest ih =>
    intro st hs
    rcases List.mem_cons.mp hs with hs1 | hs2
    · subst hs1
      exact chunks_subset_sentences_fold maxChunkSize rest
        (pushSentence maxChunkSize st s)
        (mem_pushSentence_self maxChunkSize st s hlen)
    · exact ih (pushSentence maxChunkSize st s0) hs2

/-- Helper: characters of a blank-line-split piece come from the input. -/
theorem splitParasAux_chars (cur t : Str) :
    ∀ piece ∈ splitParasAux cur t, ∀ c ∈ piece, c ∈ cur ∨ c ∈ t := by
  induction cur, t using splitParasAux.induct with
  | case1 cur =>
    intro piece hp c hc
    have hp2 : piece = cur.reverse := by simpa [splitParasAux] using hp
    subst hp2
    exact Or.inl (by simpa using hc)
  | case2 cur rest ih =>
    intro piece hp c hc
    have hp2 : piece = cur.reverse ∨ piece ∈ splitParasAux [] rest := by
      simpa [splitParasAux] using hp
    rcases hp2 with hp3 | hp3
    · subst hp3
      exact Or.inl (by simpa using hc)
    · rcases ih piece hp3 c hc with h1 | h1
      · exact absurd h1 (List.not_mem_nil c)
      · exact Or.inr (by simp [h1])
  | case3 cur c0 rest hne ih =>
    intro piece hp c hc
    have hp2 : piece ∈ splitParasAux (c0 :: cur) rest := by
      rw [splitParasAux] at hp
      · exact hp
      · exact hne
    rcases ih piece hp2 c hc with h1 | h1
    · rcases List.mem_cons.mp h1 with h2 | h2
      · subst h2; exact Or.inr (List.mem_cons_self c rest)
      · exact Or.inl h2
    · exact Or.inr (List.mem_cons_of_mem c0 h1)

/-- Helper: a string trims to empty exactly when all its characters are
whitespace. -/
theorem jsTrim_eq_nil_iff (s : Str) :
    jsTrim s = [] ↔ ∀ c ∈ s, isJsWhitespace c := by
  unfold jsTrim
  rw [List.reverse_eq_nil_iff, List.dropWhile_eq_nil_iff]
  constructor
  · intro h c hc
    have hs : c ∈ s.takeWhile isJsWhitespace ∨
        c ∈ s.dropWhile isJsWhitespace := by
      rw [← List.mem_append, List.takeWhile_append_dropWhile]
      exact hc
    rcases hs with h1 | h1
    · exact List.mem_takeWhile_imp h1
    · exact h c (by simpa using h1)
  · intro h c hc
    have h1 : c ∈ s.dropWhile isJsWhitespace := by simpa using hc
    exact h c ((List.dropWhile_sublist _).subset h1)

/-- Helper: a paragraph surviving the blank-line filter forces the whole
text to be non-blank, so splitText takes its main branch. -/
theorem jsTrim_text_ne_nil_of_para (text p : Str)
    (hp : p ∈ paragraphsOf text) : jsTrim text ≠ [] := by
  intro htext
  have hmf := List.mem_filter.mp hp
  have hne : jsTrim p ≠ [] := by simpa using hmf.2
  apply hne
  rw [jsTrim_eq_nil_iff]
  intro c hc
  have hall := (jsTrim_eq_nil_iff text).mp htext
  rcases splitParasAux_chars [] text p hmf.1 c hc with h1 | h1
  · exact absurd h1 (List.not_mem_nil c)
  · exact hall c h1

/-- Helper: an over-long sentence of an over-long paragraph is emitted as
its own chunk by that paragraph's step. -/
theorem mem_pushParagraph (maxChunkSize : Nat) (st : List Str × Str)
    (p s : Str) (hpl : maxChunkSize < p.length) (hs : s ∈ sentencesOf p)
    (hlen : maxChunkSize < s.length) :
    jsTrim s ∈ (pushParagraph maxChunkSize st p).1 := by
  unfold pushParagraph
  rw [if_pos hpl]
  exact mem_sentences_fold maxChunkSize s hlen (sentencesOf p) st hs

/-- Helper: the emitted over-long sentence survives the rest of the
paragraph fold. -/
theorem mem_paras_fold (maxChunkSize : Nat) (s p : Str)
    (hpl : maxChunkSize < p.length) (hs : s ∈ sentencesOf p)
    (hlen : maxChunkSize < s.length) (ps : List Str) :
    ∀ st : List Str × Str, p ∈ ps →
      jsTrim s ∈ (ps.foldl (pushParagraph maxChunkSize) st).1 := by
  induction ps with
  | nil => intro st hp; exact absurd hp (List.not_mem_nil p)
  | cons p0 rest ih =>
    intro st hp
    rcases List.mem_cons.mp hp with h1 | h2
    · subst h1
      exact chunks_subset_paras_fold maxChunkSize rest
        (pushParagraph maxChunkSize st p)
        (mem_pushParagraph maxChunkSize st p s hpl hs hlen)
    · exact ih (pushParagraph maxChunkSize st p0) h2

/-- Claim C5 as amended: splitText splits an over-long paragraph at
sentence boundaries, losing no characters and breaking only after a
terminator (so the terminating punctuation stays with its sentence); a
sentence that alone exceeds the limit always becomes its own chunk (never
truncated); but the accumulation is not the paragraph-level greedy rule:
any sentence that does not fit on top of the current chunk is emitted as
its own chunk after the current chunk is flushed, and accumulation
restarts from empty rather than from that sentence. -/
theorem claim_C5_amended (maxChunkSize : Nat) (text p s : Str) :
    ((splitSentencesAux [] p).flatten = p) ∧
    (∀ s2 ∈ splitSentencesAux [] p, ∀ c ∈ s2.dropLast,
      c ∉ sentenceTerminators) ∧
    (p ∈ paragraphsOf text → maxChunkSize < p.length →
      s ∈ sentencesOf p → maxChunkSize < s.length →
      jsTrim s ∈ splitText maxChunkSize text) ∧
    (∀ st : List Str × Str, maxChunkSize < st.2.length + s.length →
      pushSentence maxChunkSize st s =
        (st.1 ++ (if 0 < st.2.length then [jsTrim st.2] else []) ++
          [jsTrim s], [])) := by
  refine ⟨by simpa using splitSentencesAux_flatten p [],
    splitSentencesAux_interior p [] (by simp), ?_, ?_⟩
  · intro hp hpl hs hlen
    have hmem := mem_paras_fold maxChunkSize s p hpl hs hlen
      (paragraphsOf text) ([], []) hp
    simp only [splitText]
    rw [if_neg (jsTrim_text_ne_nil_of_para text p hp)]
    split
    · exact List.mem_append_left _ hmem
    · exact hmem
  · intro st hover
    unfold pushSentence
    rw [if_pos hover]

/-- Witness for claim C5 as amended: an over-long sentence of an over-long
single-paragraph text shows up as its own chunk. -/
theorem claim_C5_witness :
    (( "aaaaaaaaaaaa。bb。".toList) ∈
        paragraphsOf ( "aaaaaaaaaaaa。bb。".toList) ∧
      10 < ( "aaaaaaaaaaaa。bb。".toList).length ∧
      ( "aaaaaaaaaaaa。".toList) ∈
        sentencesOf ( "aaaaaaaaaaaa。bb。".toList) ∧
      10 < ( "aaaaaaaaaaaa。".toList).length) ∧
    jsTrim ( "aaaaaaaaaaaa。".toList) ∈
      splitText 10 ( "aaaaaaaaaaaa。bb。".toList) :=
  ⟨⟨by decide, by decide, by decide, by decide⟩,
    (claim_C5_amended 10 ( "aaaaaaaaaaaa。bb。".toList)
        ( "aaaaaaaaaaaa。bb。".toList) ( "aaaaaaaaaaaa。".toList)).2.2.1
      (by decide) (by decide) (by decide) (by decide)⟩

/-! ## Claim C1: the quota fetch loop -/

/-- Helper: the batched quota loop satisfies its invariant (induction on a
bound of the candidate-list length). -/
theorem quotaFetchAux_spec_len (fetch : String → Except String Str)
    (tgt : Nat) :
    ∀ (n : Nat) (l : List Article), l.length ≤ n →
      ∀ (results : List ArticleWithContent)
        (failed : List (String × String)),
        quotaSpec fetch tgt results l
          (quotaFetchAux fetch tgt results failed l) := by
  intro n
  induction n with
  | zero =>
    intro l hl results failed
    have hnil : l = [] := List.eq_nil_of_length_eq_zero (by omega)
    subst hnil
    refine ⟨by simp [quotaFetchAux], by simp [quotaFetchAux],
      Or.inr (by simp [quotaFetchAux]), Or.inl (by simp [quotaFetchAux]),
      ?_⟩
    intro j hj hlt
    simp [quotaFetchAux] at hlt
  | succ n ih =>
    intro l hl results failed
    match l with
    | [] =>
      refine ⟨by simp [quotaFetchAux], by simp [quotaFetchAux],
        Or.inr (by simp [quotaFetchAux]), Or.inl (by simp [quotaFetchAux]),
        ?_⟩
      intro j hj hlt
      simp [quotaFetchAux] at hlt
    | [a] =>
      have e : quotaFetchAux fetch tgt results failed [a] =
          ⟨results ++ [a].filterMap (fetchSuccess fetch),
            failed ++ [a].filterMap (fetchFailure fetch), [a]⟩ := by
        simp [quotaFetchAux]
      rw [e]
      refine ⟨by simp, rfl, Or.inr rfl, Or.inr rfl, ?_⟩
      intro j hj hlt
      have hlt2 : 3 * j < ([a] : List Article).length := hlt
      simp at hlt2
      omega
    | [a, b] =>
      have e : quotaFetchAux fetch tgt results failed [a, b] =
          ⟨results ++ [a, b].filterMap (fetchSuccess fetch),
            failed ++ [a, b].filterMap (fetchFailure fetch), [a, b]⟩ := by
        simp [quotaFetchAux]
      rw [e]
      refine ⟨by simp, rfl, Or.inr rfl, Or.inr rfl, ?_⟩
      intro j hj hlt
      have hlt2 : 3 * j < ([a, b] : List Article).length := hlt
      simp at hlt2
      omega
    | a :: b :: c :: rest =>
      by_cases hcond : tgt ≤
          (results ++ [a, b, c].filterMap (fetchSuccess fetch)).length
      · have e : quotaFetchAux fetch tgt results failed
            (a :: b :: c :: rest) =
            ⟨results ++ [a, b, c].filterMap (fetchSuccess fetch),
              failed ++ [a, b, c].filterMap (fetchFailure fetch),
              [a, b, c]⟩ := by
          simp only [quotaFetchAux]
          rw [if_pos hcond]
        rw [e]
        refine ⟨by simp, rfl, Or.inl hcond, Or.inl (by simp), ?_⟩
        intro j hj hlt
        have hlt2 : 3 * j < ([a, b, c] : List Article).length := hlt
        simp at hlt2
        omega
      · have hrest : rest.length ≤ n := by
          simp only [List.length_cons] at hl
          omega
        have ihr := ih rest hrest
          (results ++ [a, b, c].filterMap (fetchSuccess fetch))
          (failed ++ [a, b, c].filterMap (fetchFailure fetch))
        obtain ⟨ih1, ih2, ih3, ih4, ih5⟩ := ihr
        have e : quotaFetchAux fetch tgt results failed
            (a :: b :: c :: rest) =
            ⟨(quotaFetchAux fetch tgt
                (results ++ [a, b, c].filterMap (fetchSuccess fetch))
                (failed ++ [a, b, c].filterMap (fetchFailure fetch))
                rest).results,
              (quotaFetchAux fetch tgt
                (results ++ [a, b, c].filterMap (fetchSuccess fetch))
                (failed ++ [a, b, c].filterMap (fetchFailure fetch))
                rest).failedUrls,
              a :: b :: c ::
                (quotaFetchAux fetch tgt
                  (results ++ [a, b, c].filterMap (fetchSuccess fetch))
                  (failed ++ [a, b, c].filterMap (fetchFailure fetch))
                  rest).fetched⟩ := by
          simp only [quotaFetchAux]
          rw [if_neg hcond]
        rw [e]
        set r := quotaFetchAux fetch tgt
          (results ++ [a, b, c].filterMap (fetchSuccess fetch))
          (failed ++ [a, b, c].filterMap (fetchFailure fetch)) rest with hr
        refine ⟨?_, ?_, ?_, ?_, ?_⟩
        · show a :: b :: c :: r.fetched =
            (a :: b :: c :: rest).take (a :: b :: c :: r.fetched).length
          simp only [List.length_cons, List.take_succ_cons]
          rw [← ih1]
        · show r.results = results ++
            (a :: b :: c :: r.fetched).filterMap (fetchSuccess fetch)
          have h2 : a :: b :: c :: r.fetched = [a, b, c] ++ r.fetched := rfl
          rw [ih2, h2, List.filterMap_append, ← List.append_assoc]
        · rcases ih3 with h3 | h3
          · exact Or.inl h3
          · right
            show (a :: b :: c :: r.fetched).length =
              (a :: b :: c :: rest).length
            simp only [List.length_cons]
            omega
        · rcases ih4 with h4 | h4
          · left
            show (a :: b :: c :: r.fetched).length % 3 = 0
            simp only [List.length_cons]
            omega
          · right
            show (a :: b :: c :: r.fetched).length =
              (a :: b :: c :: rest).length
            simp only [List.length_cons]
            omega
        · intro j hj hlt
          show results.length +
            (((a :: b :: c :: rest).take (3 * j)).filterMap
              (fetchSuccess fetch)).length < tgt
          have hlt2 : 3 * j < (a :: b :: c :: r.fetched).length := hlt
          simp only [List.length_cons] at hlt2
          rw [List.length_append] at hcond
          by_cases hj1 : j = 1
          · subst hj1
            have htake : (a :: b :: c :: rest).take (3 * 1) =
                [a, b, c] := by simp
            rw [htake]
            omega
          · have hj2 : 2 ≤ j := by omega
            have hlt3 : 3 * (j - 1) < r.fetched.length := by omega
            have hrec := ih5 (j - 1) (by omega) hlt3
            have h3j : 3 * j = 3 + (3 * j - 3) := by omega
            have htake : (a :: b :: c :: rest).take (3 * j) =
                [a, b, c] ++ rest.take (3 * j - 3) := by
              rw [h3j, List.take_add]
              simp
            rw [htake, List.filterMap_append, List.length_append]
            have h3j2 : 3 * (j - 1) = 3 * j - 3 := by omega
            rw [h3j2] at hrec
            rw [List.length_append] at hrec
            omega

/-- Helper: the batched quota loop satisfies its invariant. -/
theorem quotaFetchAux_spec (fetch : String → Except String Str)
    (tgt : Nat) (results : List ArticleWithContent)
    (failed : List (String × String)) (l : List Article) :
    quotaSpec fetch tgt results l
      (quotaFetchAux fetch tgt results failed l) :=
  quotaFetchAux_spec_len fetch tgt l.length l (le_refl _) results failed

/-- Claim C1: the quota fetch loop returns exactly the first targetCount
successful candidates (with their truncated contents) in their original
order, the fetched candidates form a prefix of the input issued in batches
of 3 (the final batch may be shorter only when the list is exhausted), and
before every batch issued after the first the successes of the candidates
already fetched were still below the target — so candidates beyond the
stopping batch are never fetched. -/
theorem claim_C1 (fetch : String → Except String Str) (targetCount : Nat)
    (articles : List Article) :
    (fetchArticleContentsWithFallback fetch articles targetCount).results =
      (articles.filterMap (fetchSuccess fetch)).take targetCount ∧
    (fetchArticleContentsWithFallback fetch articles targetCount).fetched =
      articles.take
        (fetchArticleContentsWithFallback fetch articles
          targetCount).fetched.length ∧
    ((fetchArticleContentsWithFallback fetch articles
          targetCount).fetched.length % 3 = 0 ∨
      (fetchArticleContentsWithFallback fetch articles
        targetCount).fetched.length = articles.length) ∧
    (∀ j, 0 < j →
      3 * j < (fetchArticleContentsWithFallback fetch articles
        targetCount).fetched.length →
      ((articles.take (3 * j)).filterMap (fetchSuccess fetch)).length <
        targetCount) := by
  obtain ⟨s1, s2, s3, s4, s5⟩ :=
    quotaFetchAux_spec fetch targetCount [] [] articles
  have hout : fetchArticleContentsWithFallback fetch articles targetCount =
      ⟨(quotaFetchAux fetch targetCount [] [] articles).results.take
          targetCount,
        (quotaFetchAux fetch targetCount [] [] articles).failedUrls,
        (quotaFetchAux fetch targetCount [] [] articles).fetched⟩ := rfl
  rw [hout]
  set q := quotaFetchAux fetch targetCount [] [] articles with hq
  have hq2 : q.results = q.fetched.filterMap (fetchSuccess fetch) := by
    simpa using s2
  refine ⟨?_, ?_, ?_, ?_⟩
  · show q.results.take targetCount =
      (articles.filterMap (fetchSuccess fetch)).take targetCount
    rcases s3 with h | h
    · have hlen : targetCount ≤
          (q.fetched.filterMap (fetchSuccess fetch)).length := by
        rw [← hq2]
        exact h
      have hsplit : articles =
          q.fetched ++ articles.drop q.fetched.length := by
        conv_lhs => rw [← List.take_append_drop q.fetched.length articles]
        rw [← s1]
      rw [hq2]
      conv_rhs => rw [hsplit]
      rw [List.filterMap_append, List.take_append_eq_append_take,
        Nat.sub_eq_zero_of_le hlen]
      simp
    · have hfa : q.fetched = articles := by
        rw [s1, h, List.take_length]
      rw [hq2, hfa]
  · show q.fetched = articles.take q.fetched.length
    exact s1
  · show q.fetched.length % 3 = 0 ∨ q.fetched.length = articles.length
    exact s4
  · intro j hj hlt
    have hlt2 : 3 * j < q.fetched.length := hlt
    have := s5 j hj hlt2
    simpa using this

/-- Witness for claim C1 at the alternating success/failure pool of the
specification's own quota-truncation test: with target 3 the loop stops
after the second batch (6 candidates fetched), so for the first batch
boundary the successes were still below target. -/
theorem claim_C1_witness :
    (0 < 1 ∧ 3 * 1 <
      (fetchArticleContentsWithFallback witnessFetchC1 witnessArticlesC1
        3).fetched.length) ∧
    ((witnessArticlesC1.take (3 * 1)).filterMap
      (fetchSuccess witnessFetchC1)).length < 3 :=
  ⟨⟨by decide, by decide⟩,
    (claim_C1 witnessFetchC1 3 witnessArticlesC1).2.2.2 1 (by decide)
      (by decide)⟩

/-! ## Claim C2: ordered concurrent synthesizer -/

/-- Helper: window pairs of a concatenation are the pairs of the parts with
shifted offsets. -/
theorem windowPairsFrom_append (synth : Str → β) (l1 l2 : List Str) :
    ∀ off : Nat, windowPairsFrom synth off (l1 ++ l2) =
      windowPairsFrom synth off l1 ++
        windowPairsFrom synth (off + l1.length) l2 := by
  induction l1 with
  | nil => intro off; simp [windowPairsFrom]
  | cons ch rest ih =>
    intro off
    show (off, synth ch) :: windowPairsFrom synth (off + 1) (rest ++ l2) =
      (off, synth ch) :: (windowPairsFrom synth (off + 1) rest ++
        windowPairsFrom synth (off + (rest.length + 1)) l2)
    rw [ih (off + 1),
      show off + (rest.length + 1) = off + 1 + rest.length from by omega]

/-- Helper: with positive concurrency and enough fuel, the windowed
dispatch produces exactly the index-tagged synthesis of every chunk in
order — windowing is transparent for the pairs. -/
theorem audioPairsAux_eq (synth : Str → β) (concurrency : Nat)
    (hc : 0 < concurrency) :
    ∀ (fuel : Nat) (l : List Str) (off : Nat), l.length ≤ fuel →
      audioPairsAux synth concurrency fuel off l =
        windowPairsFrom synth off l := by
  intro fuel
  induction fuel with
  | zero =>
    intro l off hl
    have hnil : l = [] := List.eq_nil_of_length_eq_zero (by omega)
    subst hnil
    simp [audioPairsAux, windowPairsFrom]
  | succ n ih =>
    intro l off hl
    match l with
    | [] => simp [audioPairsAux, windowPairsFrom]
    | ch :: rest =>
      have hdroplen : ((ch :: rest).drop concurrency).length ≤ n := by
        simp only [List.length_drop, List.length_cons]
        simp only [List.length_cons] at hl
        omega
      have e : audioPairsAux synth concurrency (n + 1) off (ch :: rest) =
          windowPairsFrom synth off ((ch :: rest).take concurrency) ++
            audioPairsAux synth concurrency n (off + concurrency)
              ((ch :: rest).drop concurrency) := rfl
      rw [e, ih ((ch :: rest).drop concurrency) (off + concurrency)
        hdroplen]
      by_cases hlen : concurrency ≤ (ch :: rest).length
      · have htl : ((ch :: rest).take concurrency).length = concurrency :=
          by rw [List.length_take]; omega
        conv_rhs => rw [← List.take_append_drop concurrency (ch :: rest)]
        rw [windowPairsFrom_append, htl]
      · have hdrop : (ch :: rest).drop concurrency = [] := by
          apply List.drop_eq_nil_of_le
          omega
        have htake : (ch :: rest).take concurrency = ch :: rest := by
          apply List.take_of_length_le
          omega
        rw [hdrop, htake]
        simp [windowPairsFrom]

/-- Helper: the indices of the window pairs are consecutive from the
offset. -/
theorem windowPairsFrom_map_fst (synth : Str → β) (l : List Str) :
    ∀ off : Nat, (windowPairsFrom synth off l).map Prod.fst =
      List.range' off l.length := by
  induction l with
  | nil => intro off; simp [windowPairsFrom]
  | cons ch rest ih =>
    intro off
    simp only [windowPairsFrom, List.map_cons, List.length_cons,
      List.range'_succ, ih]

/-- Helper: the pair of every chunk index is among the window pairs. -/
theorem mem_windowPairsFrom (synth : Str → β) (l : List Str) :
    ∀ (off i : Nat) (hi : i < l.length),
      (off + i, synth (l.get ⟨i, hi⟩)) ∈ windowPairsFrom synth off l := by
  induction l with
  | nil => intro off i hi; simp at hi
  | cons ch rest ih =>
    intro off i hi
    match i with
    | 0 => simp [windowPairsFrom]
    | i + 1 =>
      have h2 : off + (i + 1) = (off + 1) + i := by omega
      rw [h2]
      exact List.mem_cons_of_mem _
        (ih (off + 1) i (by simpa using hi))

/-- Helper: indices absent from the write list are untouched. -/
theorem applyWrites_not_mem (init : Nat → Option β)
    (ps : List (Nat × β)) (i : Nat) (h : i ∉ ps.map Prod.fst) :
    applyWrites init ps i = init i := by
  induction ps generalizing init with
  | nil => rfl
  | cons p rest ih =>
    have h1 : i ≠ p.1 := by
      intro he
      exact h (by simp [he])
    have h2 : i ∉ rest.map Prod.fst := by
      intro he
      exact h (by simp [he])
    show applyWrites (Function.update init p.1 (some p.2)) rest i = init i
    rw [ih (Function.update init p.1 (some p.2)) h2,
      Function.update_noteq h1]

/-- Helper: with pairwise-distinct indices, a write list leaves every
written index holding its written value, in whatever order the writes are
performed. -/
theorem applyWrites_mem (init : Nat → Option β) (ps : List (Nat × β))
    (i : Nat) (b : β) (hmem : (i, b) ∈ ps)
    (hnd : (ps.map Prod.fst).Nodup) :
    applyWrites init ps i = some b := by
  induction ps generalizing init with
  | nil => exact absurd hmem (List.not_mem_nil _)
  | cons p rest ih =>
    rw [List.map_cons, List.nodup_cons] at hnd
    rcases List.mem_cons.mp hmem with h1 | h1
    · have hp1 : p.1 = i := by rw [← h1]
      have hp2 : p.2 = b := by rw [← h1]
      have hni : i ∉ rest.map Prod.fst := by
        rw [← hp1]
        exact hnd.1
      show applyWrites (Function.update init p.1 (some p.2)) rest i =
        some b
      rw [applyWrites_not_mem _ rest i hni, hp1, hp2,
        Function.update_same]
    · exact ih (Function.update init p.1 (some p.2)) h1 hnd.2

/-- Helper: flattening the window partition restores the chunk list. -/
theorem windowsAux_flatten (concurrency : Nat) (hc : 0 < concurrency) :
    ∀ (fuel : Nat) (l : List α), l.length ≤ fuel →
      (windowsAux concurrency fuel l).flatten = l := by
  intro fuel
  induction fuel with
  | zero =>
    intro l hl
    have hnil : l = [] := List.eq_nil_of_length_eq_zero (by omega)
    subst hnil
    simp [windowsAux]
  | succ n ih =>
    intro l hl
    match l with
    | [] => simp [windowsAux]
    | ch :: rest =>
      have hdroplen : ((ch :: rest).drop concurrency).length ≤ n := by
        simp only [List.length_drop, List.length_cons]
        simp only [List.length_cons] at hl
        omega
      show ((ch :: rest).take concurrency ::
        windowsAux concurrency n ((ch :: rest).drop concurrency)).flatten =
        ch :: rest
      rw [List.flatten_cons, ih _ hdroplen, List.take_append_drop]

/-- Helper: every window is a non-empty slice of at most the concurrency
size. -/
theorem windowsAux_mem (concurrency : Nat) (hc : 0 < concurrency) :
    ∀ (fuel : Nat) (l : List α), ∀ w ∈ windowsAux concurrency fuel l,
      w ≠ [] ∧ w.length ≤ concurrency := by
  intro fuel
  induction fuel with
  | zero =>
    intro l w hw
    cases l with
    | nil => simp [windowsAux] at hw
    | cons ch rest => simp [windowsAux] at hw
  | succ n ih =>
    intro l w hw
    cases l with
    | nil => simp [windowsAux] at hw
    | cons ch rest =>
      rcases List.mem_cons.mp hw with h1 | h1
      · subst h1
        constructor
        · match concurrency, hc with
          | k + 1, _ => simp
        · rw [List.length_take]
          omega
      · exact ih ((ch :: rest).drop concurrency) w h1

/-- Helper: the window list is empty only for an empty chunk list. -/
theorem windowsAux_ne_nil (concurrency : Nat) (fuel : Nat) (ch : α)
    (rest : List α) :
    windowsAux concurrency (fuel + 1) (ch :: rest) ≠ [] := by
  simp [windowsAux]

/-- Helper: every window except possibly the last is full. -/
theorem windowsAux_dropLast (concurrency : Nat) (hc : 0 < concurrency) :
    ∀ (fuel : Nat) (l : List α), l.length ≤ fuel →
      ∀ w ∈ (windowsAux concurrency fuel l).dropLast,
        w.length = concurrency := by
  intro fuel
  induction fuel with
  | zero =>
    intro l hl w hw
    have hnil : l = [] := List.eq_nil_of_length_eq_zero (by omega)
    subst hnil
    simp [windowsAux] at hw
  | succ n ih =>
    intro l hl w hw
    cases l with
    | nil => simp [windowsAux] at hw
    | cons ch rest =>
      have hdroplen : ((ch :: rest).drop concurrency).length ≤ n := by
        simp only [List.length_drop, List.length_cons]
        simp only [List.length_cons] at hl
        omega
      have hw2 : w ∈ ((ch :: rest).take concurrency ::
          windowsAux concurrency n ((ch :: rest).drop concurrency)
            ).dropLast := hw
      rcases hws : windowsAux concurrency n ((ch :: rest).drop concurrency)
        with _ | ⟨w0, ws⟩
      · rw [hws] at hw2
        simp at hw2
      · rw [hws] at hw2
        rw [List.dropLast_cons_of_ne_nil (by simp)] at hw2
        rcases List.mem_cons.mp hw2 with h1 | h1
        · subst h1
          have hne : (ch :: rest).drop concurrency ≠ [] := by
            intro hdnil
            rw [hdnil] at hws
            cases n with
            | zero => simp [windowsAux] at hws
            | succ m => simp [windowsAux] at hws
          have hlen : concurrency < (ch :: rest).length := by
            by_contra hle
            exact hne (List.drop_eq_nil_of_le (by omega))
          rw [List.length_take]
          omega
        · have := ih ((ch :: rest).drop concurrency) hdroplen w
          rw [hws] at this
          exact this h1

/-- Claim C2: generateAudio walks the chunk list in sequential
non-overlapping windows of the concurrency size (flattening the windows
restores the chunks; every window but the last is full), and whatever
order the index-tagged window results are written back in — any
permutation of the dispatched pairs — position i of the result array ends
up holding the synthesis of chunk i. -/
theorem claim_C2 (synth : Str → β) (concurrency : Nat)
    (chunks : List Str) (hc : 0 < concurrency) :
    ((windows concurrency chunks).flatten = chunks) ∧
    (∀ w ∈ windows concurrency chunks,
      w ≠ [] ∧ w.length ≤ concurrency) ∧
    (∀ w ∈ (windows concurrency chunks).dropLast,
      w.length = concurrency) ∧
    (∀ ps : List (Nat × β),
      ps.Perm (audioPairs synth concurrency chunks) →
      ∀ (i : Nat) (hi : i < chunks.length),
        applyWrites (fun _ => none) ps i =
          some (synth (chunks.get ⟨i, hi⟩))) ∧
    (∀ (i : Nat) (hi : i < chunks.length),
      generateAudioBuffers synth concurrency chunks i =
        some (synth (chunks.get ⟨i, hi⟩))) := by
  have hpairs : audioPairs synth concurrency chunks =
      windowPairsFrom synth 0 chunks :=
    audioPairsAux_eq synth concurrency hc chunks.length chunks 0
      (le_refl _)
  have hkey : ∀ ps : List (Nat × β),
      ps.Perm (audioPairs synth concurrency chunks) →
      ∀ (i : Nat) (hi : i < chunks.length),
        applyWrites (fun _ => none) ps i =
          some (synth (chunks.get ⟨i, hi⟩)) := by
    intro ps hperm i hi
    have hmem : (i, synth (chunks.get ⟨i, hi⟩)) ∈ ps := by
      rw [hperm.mem_iff, hpairs]
      have := mem_windowPairsFrom synth chunks 0 i hi
      simpa using this
    have hnd : (ps.map Prod.fst).Nodup := by
      rw [(hperm.map Prod.fst).nodup_iff, hpairs,
        windowPairsFrom_map_fst]
      exact List.nodup_range' 0 chunks.length
    exact applyWrites_mem (fun _ => none) ps i _ hmem hnd
  refine ⟨windowsAux_flatten concurrency hc chunks.length chunks
      (le_refl _),
    fun w hw => windowsAux_mem concurrency hc chunks.length chunks w hw,
    fun w hw => windowsAux_dropLast concurrency hc chunks.length chunks
      (le_refl _) w hw,
    hkey, ?_⟩
  intro i hi
  exact hkey (audioPairs synth concurrency chunks) (List.Perm.refl _) i hi

/-- Witness for claim C2: three chunks, concurrency two, and the writes
performed in a scrambled completion order still land by index. -/
theorem claim_C2_witness :
    (0 < 2 ∧
      ([(1, 1), (0, 3), (2, 2)] : List (Nat × Nat)).Perm
        (audioPairs List.length 2
          [ "abc".toList, "x".toList, "yz".toList]) ∧
      0 < ([ "abc".toList, "x".toList, "yz".toList] : List Str).length) ∧
    applyWrites (fun _ => none) ([(1, 1), (0, 3), (2, 2)] : List (Nat × Nat))
      0 = some 3 :=
  ⟨⟨by decide, by decide, by decide⟩, by
    have h := (claim_C2 List.length 2
      [ "abc".toList, "x".toList, "yz".toList] (by decide)).2.2.2.1
      [(1, 1), (0, 3), (2, 2)] (by decide) 0 (by decide)
    simpa using h⟩

/-! ## Claim C3: synthesis failure is fatal to the run -/

/-- Helper: a window containing a failing chunk rejects. -/
theorem synthWindow_error_of_mem (synth : Str → Except String β)
    (w : List Str) :
    ∀ (off : Nat) (ch : Str), ch ∈ w → (∃ e, synth ch = Except.error e) →
      ∃ e2, synthWindow synth off w = Except.error e2 := by
  induction w with
  | nil =>
    intro off ch hch
    exact absurd hch (List.not_mem_nil ch)
  | cons c0 rest ih =>
    intro off ch hch he
    obtain ⟨e, he⟩ := he
    rcases List.mem_cons.mp hch with h1 | h1
    · subst h1
      exact ⟨e, by simp [synthWindow, he]⟩
    · cases hs : synth c0 with
      | error e0 => exact ⟨e0, by simp [synthWindow, hs]⟩
      | ok b =>
        obtain ⟨e2, he2⟩ := ih (off + 1) ch h1 ⟨e, he⟩
        exact ⟨e2, by simp [synthWindow, hs, he2]⟩

/-- Helper: a failing chunk anywhere in the list makes the window loop
reject. -/
theorem generateAudioAux_error (synth : Str → Except String β)
    (concurrency : Nat) (hc : 0 < concurrency) :
    ∀ (fuel : Nat) (l : List Str) (off : Nat) (buf : Nat → Option β),
      l.length ≤ fuel → (∃ ch ∈ l, ∃ e, synth ch = Except.error e) →
      ∃ e2, generateAudioAux synth concurrency fuel off buf l =
        Except.error e2 := by
  intro fuel
  induction fuel with
  | zero =>
    intro l off buf hl hfail
    have hnil : l = [] := List.eq_nil_of_length_eq_zero (by omega)
    subst hnil
    obtain ⟨ch, hch, _⟩ := hfail
    exact absurd hch (List.not_mem_nil ch)
  | succ n ih =>
    intro l off buf hl hfail
    obtain ⟨ch, hch, e0, he0⟩ := hfail
    match l with
    | [] => exact absurd hch (List.not_mem_nil ch)
    | c0 :: rest =>
      have estep : generateAudioAux synth concurrency (n + 1) off buf
          (c0 :: rest) =
          match synthWindow synth off ((c0 :: rest).take concurrency) with
          | .error e => .error e
          | .ok ps =>
            generateAudioAux synth concurrency n (off + concurrency)
              (applyWrites buf ps) ((c0 :: rest).drop concurrency) := rfl
      have hsplit : ch ∈ (c0 :: rest).take concurrency ++
          (c0 :: rest).drop concurrency := by
        rw [List.take_append_drop]
        exact hch
      rcases List.mem_append.mp hsplit with hin | hin
      · obtain ⟨e2, he2⟩ := synthWindow_error_of_mem synth
          ((c0 :: rest).take concurrency) off ch hin ⟨e0, he0⟩
        exact ⟨e2, by rw [estep, he2]⟩
      · cases hsw : synthWindow synth off ((c0 :: rest).take concurrency)
          with
        | error e1 => exact ⟨e1, by rw [estep, hsw]⟩
        | ok ps =>
          have hdroplen : ((c0 :: rest).drop concurrency).length ≤ n := by
            simp only [List.length_drop, List.length_cons]
            simp only [List.length_cons] at hl
            omega
          obtain ⟨e2, he2⟩ := ih ((c0 :: rest).drop concurrency)
            (off + concurrency) (applyWrites buf ps) hdroplen
            ⟨ch, hin, e0, he0⟩
          refine ⟨e2, ?_⟩
          rw [estep, hsw]
          exact he2

/-- Claim C3: when any chunk of the generated script fails to synthesize,
the error propagates out of the synthesis stage, Pipeline.run returns the
structured failure result (success false, the error message, article count
0) rather than crashing, and the run publishes no episode and marks no
article as processed. -/
theorem claim_C3 (storage : StorageData) (collected : List Article)
    (select : List Article → List Article)
    (fetch : String → Except String Str) (targetCount : Nat)
    (generateScript : List ArticleWithContent → Script)
    (synth : Str → Except String β) (chunkSize concurrency : Nat)
    (now : Int) (hc : 0 < concurrency)
    (h1 : collected.length ≠ 0)
    (h2 : (newArticlesOf storage collected now).length ≠ 0)
    (h3 : (select (newArticlesOf storage collected now)).length ≠ 0)
    (h4 : (fetchArticleContentsWithFallback fetch
      (select (newArticlesOf storage collected now))
      targetCount).results.length ≠ 0)
    (hfail : ∃ ch ∈ splitText chunkSize
        (generateScript (fetchArticleContentsWithFallback fetch
          (select (newArticlesOf storage collected now))
          targetCount).results).content,
      ∃ e, synth ch = Except.error e) :
    ∃ e, generateAudioRun synth concurrency
        (splitText chunkSize (generateScript
          (fetchArticleContentsWithFallback fetch
            (select (newArticlesOf storage collected now))
            targetCount).results).content) = Except.error e ∧
      (runModel storage collected select fetch targetCount generateScript
        synth chunkSize concurrency false now).1 =
        ⟨false, none, none, none, 0, some e⟩ ∧
      (runModel storage collected select fetch targetCount generateScript
        synth chunkSize concurrency false now).2.published = none ∧
      (runModel storage collected select fetch targetCount generateScript
        synth chunkSize concurrency false now).2.markedProcessed = [] := by
  obtain ⟨ch, hch, e0, he0⟩ := hfail
  obtain ⟨e, he⟩ := generateAudioAux_error synth concurrency hc
    (splitText chunkSize (generateScript
      (fetchArticleContentsWithFallback fetch
        (select (newArticlesOf storage collected now))
        targetCount).results).content).length
    (splitText chunkSize (generateScript
      (fetchArticleContentsWithFallback fetch
        (select (newArticlesOf storage collected now))
        targetCount).results).content)
    0 (fun _ => none) (le_refl _) ⟨ch, hch, e0, he0⟩
  have he2 : generateAudioRun synth concurrency
      (splitText chunkSize (generateScript
        (fetchArticleContentsWithFallback fetch
          (select (newArticlesOf storage collected now))
          targetCount).results).content) = Except.error e := he
  have hrun : runModel storage collected select fetch targetCount
      generateScript synth chunkSize concurrency false now =
      (⟨false, none, none, none, 0, some e⟩,
        ⟨none, [],
          (fetchArticleContentsWithFallback fetch
            (select (newArticlesOf storage collected now))
            targetCount).failedUrls.foldl
            (fun st p => (markUrlAsFailed st p.1 p.2 now).1) storage⟩) := by
    simp only [runModel]
    rw [if_neg h1, if_neg h2, if_neg h3, if_neg h4,
      if_neg (by simp : ¬(false = true)), he2]
  exact ⟨e, he2, by rw [hrun], by rw [hrun], by rw [hrun]⟩

/-- Witness for claim C3 at a one-article, one-chunk run whose synthesis
always fails. -/
theorem claim_C3_witness :
    ((0 : Nat) < 1 ∧ witnessCollectedC3.length ≠ 0 ∧
      (newArticlesOf ⟨[], []⟩ witnessCollectedC3 0).length ≠ 0 ∧
      (id (newArticlesOf ⟨[], []⟩ witnessCollectedC3 0)).length ≠ 0 ∧
      (fetchArticleContentsWithFallback witnessFetchC3
        (id (newArticlesOf ⟨[], []⟩ witnessCollectedC3 0))
        1).results.length ≠ 0 ∧
      ( "abc".toList ∈ splitText 100 (witnessScriptGenC3
        (fetchArticleContentsWithFallback witnessFetchC3
          (id (newArticlesOf ⟨[], []⟩ witnessCollectedC3 0))
          1).results).content) ∧
      witnessSynthC3 ( "abc".toList) = Except.error "boom") ∧
    (∃ e, generateAudioRun witnessSynthC3 1
        (splitText 100 (witnessScriptGenC3
          (fetchArticleContentsWithFallback witnessFetchC3
            (id (newArticlesOf ⟨[], []⟩ witnessCollectedC3 0))
            1).results).content) = Except.error e ∧
      (runModel ⟨[], []⟩ witnessCollectedC3 id witnessFetchC3 1
        witnessScriptGenC3 witnessSynthC3 100 1 false 0).1 =
        ⟨false, none, none, none, 0, some e⟩ ∧
      (runModel ⟨[], []⟩ witnessCollectedC3 id witnessFetchC3 1
        witnessScriptGenC3 witnessSynthC3 100 1 false
        0).2.published = none ∧
      (runModel ⟨[], []⟩ witnessCollectedC3 id witnessFetchC3 1
        witnessScriptGenC3 witnessSynthC3 100 1 false
        0).2.markedProcessed = []) :=
  ⟨⟨by decide, by decide, by decide, by decide, by decide, by decide,
      rfl⟩,
    claim_C3 ⟨[], []⟩ witnessCollectedC3 id witnessFetchC3 1
      witnessScriptGenC3 witnessSynthC3 100 1 0 (by decide) (by decide)
      (by decide) (by decide) (by decide)
      ⟨ "abc".toList, by decide, "boom", rfl⟩⟩

end CuraCast
